import Mathlib

/-!
Verification of the allocation and settlement engine of the splitbill
repository (src/src/App.tsx).  The data model and the two core functions,
calculatePersonTotals and calculateSettlements, are embedded below with
money values as rationals.  The while loop of calculateSettlements is
embedded as a fuel-indexed recursion mirroring the loop body literally;
a fuel of debtors.length + creditors.length is proved sufficient
(each iteration advances at least one cursor), so the fueled function at
that fuel is the loop.
-/

namespace SplitBill

/-- A person of the session: opaque id, display name, display color. -/
structure Person where
  id : String
  name : String
  color : String
deriving DecidableEq, Repr

/-- A line item of a bill.  qty is informational only; sharedBy is the list
of person ids the price is split across. -/
structure Item where
  id : String
  name : String
  price : ℚ
  qty : ℚ
  sharedBy : List String
deriving DecidableEq, Repr

/-- A bill (ReceiptData in the source): items plus stored monetary scalars. -/
structure ReceiptData where
  id : String
  name : String
  items : List Item
  subtotal : ℚ
  tax : ℚ
  serviceCharge : ℚ
  total : ℚ
deriving DecidableEq, Repr

/-- A payment made by one person toward the whole session. -/
structure Payment where
  id : String
  personId : String
  amount : ℚ
  note : String
deriving DecidableEq, Repr

/-- The derived per-person totals record returned by calculatePersonTotals. -/
structure PersonTotalsRec where
  id : String
  name : String
  color : String
  itemTotal : ℚ
  taxShare : ℚ
  serviceShare : ℚ
  finalTotal : ℚ
  amountPaid : ℚ
  balance : ℚ
deriving DecidableEq, Repr

/-- One suggested transfer of the settlement solver. -/
structure Settlement where
  fromName : String
  toName : String
  amount : ℚ
deriving DecidableEq, Repr

/-- Contribution of one item to the bill-local item total of the person id
pid.  In the source the loop over item.sharedBy adds
price / sharedBy.length per occurrence of an id, guarded by
billPersonItemTotals[personId] !== undefined, i.e. the id must be a key of
the record, and the record is keyed by the ids of people. -/
def itemShare (people : List Person) (item : Item) (pid : String) : ℚ :=
  if 0 < item.sharedBy.length ∧ pid ∈ people.map Person.id then
    item.price / (item.sharedBy.length : ℚ) * (item.sharedBy.count pid : ℚ)
  else 0

/-- The bill-local item total billPersonItemTotals[pid] accumulated over the
items of the bill. -/
def billPersonItemTotal (people : List Person) (bill : ReceiptData) (pid : String) : ℚ :=
  (bill.items.map (fun item => itemShare people item pid)).sum

/-- billAssignedSubtotal: sum of the prices of the items having at least one
assignee (the full price, regardless of which ids are known). -/
def billAssignedSubtotal (bill : ReceiptData) : ℚ :=
  (bill.items.map (fun item => if 0 < item.sharedBy.length then item.price else 0)).sum

/-- baseForProportion = billAssignedSubtotal > 0 ? billAssignedSubtotal :
(bill.subtotal || 1).  The JavaScript || turns a zero subtotal into 1. -/
def baseForProportion (bill : ReceiptData) : ℚ :=
  if 0 < billAssignedSubtotal bill then billAssignedSubtotal bill
  else if bill.subtotal = 0 then 1 else bill.subtotal

/-- taxShare of the person id pid for one bill:
bill.tax * (itemTotal / baseForProportion). -/
def billTaxShare (people : List Person) (bill : ReceiptData) (pid : String) : ℚ :=
  bill.tax * (billPersonItemTotal people bill pid / baseForProportion bill)

/-- serviceShare of the person id pid for one bill. -/
def billServiceShare (people : List Person) (bill : ReceiptData) (pid : String) : ℚ :=
  bill.serviceCharge * (billPersonItemTotal people bill pid / baseForProportion bill)

/-- amountPaid: sum of the amounts of the payments of the person id pid,
across the whole session. -/
def amountPaidOf (payments : List Payment) (pid : String) : ℚ :=
  ((payments.filter (fun pay => pay.personId = pid)).map Payment.amount).sum

/-- The totals record of one person: the per-bill contributions accumulate
additively across bills, finalTotal accumulating the per-bill sum
itemTotal + taxShare + serviceShare exactly as the source does. -/
def personRecord (people : List Person) (bills : List ReceiptData)
    (payments : List Payment) (p : Person) : PersonTotalsRec :=
  let itemTotal := (bills.map (fun bill => billPersonItemTotal people bill p.id)).sum
  let taxShare := (bills.map (fun bill => billTaxShare people bill p.id)).sum
  let serviceShare := (bills.map (fun bill => billServiceShare people bill p.id)).sum
  let finalTotal := (bills.map (fun bill =>
    billPersonItemTotal people bill p.id + billTaxShare people bill p.id
      + billServiceShare people bill p.id)).sum
  let amountPaid := amountPaidOf payments p.id
  { id := p.id, name := p.name, color := p.color,
    itemTotal := itemTotal, taxShare := taxShare, serviceShare := serviceShare,
    finalTotal := finalTotal, amountPaid := amountPaid,
    balance := amountPaid - finalTotal }

/-- calculatePersonTotals: one totals record per person, in people order. -/
def calculatePersonTotals (people : List Person) (bills : List ReceiptData)
    (payments : List Payment) : List PersonTotalsRec :=
  people.map (personRecord people bills payments)

/-- debtors: people with balance < -0.01, in order, with the magnitude. -/
def debtorsOf (totals : List PersonTotalsRec) : List (String × ℚ) :=
  (totals.filter (fun t => t.balance < -(1/100))).map (fun t => (t.name, |t.balance|))

/-- creditors: people with balance > 0.01, in order, with the balance. -/
def creditorsOf (totals : List PersonTotalsRec) : List (String × ℚ) :=
  (totals.filter (fun t => 1/100 < t.balance)).map (fun t => (t.name, t.balance))

/-- One-for-one embedding of the while loop of calculateSettlements, indexed
by fuel; it returns the produced settlements together with the states of the
two cursor lists at exit (current entries carry their updated balances).
The loop guard is tested before the fuel, so an exhausted list ends the
recursion at any fuel; the two cursor advances are two independent ifs,
exactly as in the source.  settleGoFuel_ge below proves that fuel
debtors.length + creditors.length is never exhausted. -/
def settleGoF : ℕ → List (String × ℚ) → List (String × ℚ) →
    List Settlement × List (String × ℚ) × List (String × ℚ)
  | _, [], creditors => ([], [], creditors)
  | _, d :: ds, [] => ([], d :: ds, [])
  | 0, debtors, creditors => ([], debtors, creditors)
  | n + 1, (dn, db) :: ds, (cn, cb) :: cs =>
    let amount := min db cb
    let db' := db - amount
    let cb' := cb - amount
    let newDebtors := if db' < 1/100 then ds else (dn, db') :: ds
    let newCreditors := if cb' < 1/100 then cs else (cn, cb') :: cs
    let rest := settleGoF n newDebtors newCreditors
    (⟨dn, cn, amount⟩ :: rest.1, rest.2)

/-- The settlement loop at its sufficient fuel. -/
def settleGo (debtors creditors : List (String × ℚ)) :
    List Settlement × List (String × ℚ) × List (String × ℚ) :=
  settleGoF (debtors.length + creditors.length) debtors creditors

/-- calculateSettlements: partition, then run the two-cursor loop. -/
def calculateSettlements (totals : List PersonTotalsRec) : List Settlement :=
  (settleGo (debtorsOf totals) (creditorsOf totals)).1

/-- Modelled from the specification text of the settlement algorithm, for
the refinement claim: debtors in original order, balance < -0.01, magnitude
the absolute value. -/
def specDebtors (totals : List PersonTotalsRec) : List (String × ℚ) :=
  (totals.filter (fun t => t.balance < -(1/100))).map (fun t => (t.name, |t.balance|))

/-- Modelled from the specification text: creditors in original order,
balance > 0.01. -/
def specCreditors (totals : List PersonTotalsRec) : List (String × ℚ) :=
  (totals.filter (fun t => 1/100 < t.balance)).map (fun t => (t.name, t.balance))

/-- Modelled from the specification text of the reference algorithm: at each
step transfer min of the two current remainings, decrement both, then
advance the debtor cursor if its remaining is below 0.01 and, independently,
advance the creditor cursor if its remaining is below 0.01. -/
def settleSpecGo : ℕ → List (String × ℚ) → List (String × ℚ) → List Settlement
  | _, [], _ => []
  | _, _ :: _, [] => []
  | 0, _ :: _, _ :: _ => []
  | n + 1, (dn, db) :: ds, (cn, cb) :: cs =>
    let amount := min db cb
    let db' := db - amount
    let cb' := cb - amount
    let newDebtors := if db' < 1/100 then ds else (dn, db') :: ds
    let newCreditors := if cb' < 1/100 then cs else (cn, cb') :: cs
    ⟨dn, cn, amount⟩ :: settleSpecGo n newDebtors newCreditors

/-- The reference settlement list described by the specification. -/
def specSettlements (totals : List PersonTotalsRec) : List Settlement :=
  settleSpecGo ((specDebtors totals).length + (specCreditors totals).length)
    (specDebtors totals) (specCreditors totals)

/-- Total amount sent by the name nm in a settlement list. -/
def sentSum (nm : String) (l : List Settlement) : ℚ :=
  ((l.filter (fun s => s.fromName = nm)).map Settlement.amount).sum

/-- Total amount received by the name nm in a settlement list. -/
def recvSum (nm : String) (l : List Settlement) : ℚ :=
  ((l.filter (fun s => s.toName = nm)).map Settlement.amount).sum

/-- Total balance carried under the name nm in a cursor list. -/
def entSum (nm : String) (l : List (String × ℚ)) : ℚ :=
  ((l.filter (fun x => x.1 = nm)).map Prod.snd).sum

/-- The balance of the totals record t after applying every transfer of l:
sending money raises the balance toward zero, receiving lowers it. -/
def appliedBalance (l : List Settlement) (t : PersonTotalsRec) : ℚ :=
  t.balance + sentSum t.name l - recvSum t.name l

/-- A rational is an exact multiple of one cent. -/
def isCent (q : ℚ) : Prop := (100 * q).den = 1

/-! ## List sum helpers -/

lemma sum_map_add' {α : Type} (l : List α) (f g : α → ℚ) :
    (l.map fun a => f a + g a).sum = (l.map f).sum + (l.map g).sum := by
  induction l with
  | nil => simp
  | cons a t ih => simp only [List.map_cons, List.sum_cons, ih]; ring

lemma sum_map_mul_left' {α : Type} (l : List α) (c : ℚ) (f : α → ℚ) :
    (l.map fun a => c * f a).sum = c * (l.map f).sum := by
  induction l with
  | nil => simp
  | cons a t ih => simp only [List.map_cons, List.sum_cons, ih]; ring

lemma sum_sum_comm' {α β : Type} (as : List α) (bs : List β) (f : α → β → ℚ) :
    (as.map fun a => (bs.map (f a)).sum).sum
      = (bs.map fun b => (as.map fun a => f a b).sum).sum := by
  induction as with
  | nil => simp
  | cons a as ih => simp only [List.map_cons, List.sum_cons, ih, sum_map_add']

lemma sum_indicator_zero (ids : List String) (a : String) (h : a ∉ ids) :
    (ids.map fun i => if a = i then (1:ℚ) else 0).sum = 0 := by
  induction ids with
  | nil => simp
  | cons b t ih =>
    simp only [List.mem_cons, not_or] at h
    rw [List.map_cons, List.sum_cons, if_neg h.1, ih h.2, zero_add]

lemma sum_indicator_one (ids : List String) (a : String) (hnd : ids.Nodup)
    (ha : a ∈ ids) :
    (ids.map fun i => if a = i then (1:ℚ) else 0).sum = 1 := by
  induction ids with
  | nil => cases ha
  | cons b t ih =>
    rw [List.nodup_cons] at hnd
    rcases List.mem_cons.mp ha with h | h
    · rw [List.map_cons, List.sum_cons, if_pos h,
        sum_indicator_zero t a (fun hat => hnd.1 (h ▸ hat)), add_zero]
    · have hab : ¬ a = b := fun e => hnd.1 (e ▸ h)
      rw [List.map_cons, List.sum_cons, if_neg hab, ih hnd.2 h, zero_add]

lemma sum_count_eq_length (l ids : List String) (hnd : ids.Nodup)
    (hsub : ∀ x ∈ l, x ∈ ids) :
    (ids.map fun i => (l.count i : ℚ)).sum = l.length := by
  induction l with
  | nil => simp
  | cons a t iht =>
    have h1 : (ids.map fun i => ((a :: t).count i : ℚ))
        = ids.map fun i => (t.count i : ℚ) + if a = i then 1 else 0 := by
      apply List.map_congr_left
      intro i _
      rw [List.count_cons]
      by_cases hai : a = i <;> simp [hai]
    rw [h1, sum_map_add', iht (fun x hx => hsub x (List.mem_cons_of_mem a hx)),
      sum_indicator_one ids a hnd (hsub a (List.mem_cons_self a t))]
    simp only [List.length_cons]
    push_cast
    ring

lemma eq_zero_of_sum_eq_zero (l : List ℚ) (hn : ∀ x ∈ l, 0 ≤ x) (hs : l.sum = 0) :
    ∀ x ∈ l, x = 0 := by
  induction l with
  | nil => intro x hx; cases hx
  | cons a t ih =>
    have hts : 0 ≤ t.sum := List.sum_nonneg (fun x hx => hn x (List.mem_cons_of_mem _ hx))
    have ha : 0 ≤ a := hn a (List.mem_cons_self a t)
    rw [List.sum_cons] at hs
    intro x hx
    rcases List.mem_cons.mp hx with h | h
    · have : a = 0 := by linarith
      exact h.trans this
    · exact ih (fun y hy => hn y (List.mem_cons_of_mem _ hy)) (by linarith) x h

/-! ## Allocator lemmas -/

lemma sum_itemShare (people : List Person) (item : Item)
    (hnd : (people.map Person.id).Nodup)
    (hids : ∀ pid ∈ item.sharedBy, pid ∈ people.map Person.id) :
    (people.map fun p => itemShare people item p.id).sum
      = if 0 < item.sharedBy.length then item.price else 0 := by
  by_cases hlen : 0 < item.sharedBy.length
  · rw [if_pos hlen]
    have h1 : (people.map fun p => itemShare people item p.id)
        = people.map fun p =>
            item.price / (item.sharedBy.length : ℚ) * (item.sharedBy.count p.id : ℚ) := by
      apply List.map_congr_left
      intro p hp
      unfold itemShare
      rw [if_pos ⟨hlen, List.mem_map_of_mem Person.id hp⟩]
    have h2 : (people.map fun p => (item.sharedBy.count p.id : ℚ))
        = (people.map Person.id).map fun i => (item.sharedBy.count i : ℚ) := by
      rw [List.map_map]
      rfl
    have hlq : ((item.sharedBy.length : ℚ)) ≠ 0 := by
      exact_mod_cast Nat.pos_iff_ne_zero.mp hlen
    rw [h1, sum_map_mul_left', h2,
      sum_count_eq_length item.sharedBy (people.map Person.id) hnd hids,
      div_mul_cancel₀ item.price hlq]
  · rw [if_neg hlen]
    apply List.sum_eq_zero
    intro x hx
    rw [List.mem_map] at hx
    obtain ⟨p, _, rfl⟩ := hx
    unfold itemShare
    rw [if_neg (fun hc => hlen hc.1)]

lemma sum_billPersonItemTotal (people : List Person) (bill : ReceiptData)
    (hnd : (people.map Person.id).Nodup)
    (hids : ∀ item ∈ bill.items, ∀ pid ∈ item.sharedBy, pid ∈ people.map Person.id) :
    (people.map fun p => billPersonItemTotal people bill p.id).sum
      = billAssignedSubtotal bill := by
  unfold billPersonItemTotal billAssignedSubtotal
  rw [sum_sum_comm']
  exact congrArg _ (List.map_congr_left fun item hitem =>
    sum_itemShare people item hnd (hids item hitem))

lemma sum_proportional_share (people : List Person) (bill : ReceiptData)
    (coeff : ℚ)
    (hnd : (people.map Person.id).Nodup)
    (hids : ∀ item ∈ bill.items, ∀ pid ∈ item.sharedBy, pid ∈ people.map Person.id)
    (hpos : 0 < billAssignedSubtotal bill) :
    (people.map fun p =>
      coeff * (billPersonItemTotal people bill p.id / baseForProportion bill)).sum
      = coeff := by
  have hbase : baseForProportion bill = billAssignedSubtotal bill := by
    unfold baseForProportion
    rw [if_pos hpos]
  have h1 : (people.map fun p =>
      coeff * (billPersonItemTotal people bill p.id / baseForProportion bill))
      = people.map fun p =>
        (coeff / baseForProportion bill) * billPersonItemTotal people bill p.id := by
    apply List.map_congr_left
    intro p _
    ring
  rw [h1, sum_map_mul_left', sum_billPersonItemTotal people bill hnd hids, hbase,
    div_mul_cancel₀ coeff (ne_of_gt hpos)]

lemma billPersonItemTotal_eq_zero (people : List Person) (bill : ReceiptData)
    (pid : String) (hzero : billAssignedSubtotal bill = 0)
    (hnonneg : ∀ item ∈ bill.items, 0 ≤ item.price) :
    billPersonItemTotal people bill pid = 0 := by
  unfold billPersonItemTotal
  apply List.sum_eq_zero
  intro x hx
  rw [List.mem_map] at hx
  obtain ⟨item, hitem, rfl⟩ := hx
  unfold itemShare
  by_cases hc : 0 < item.sharedBy.length ∧ pid ∈ people.map Person.id
  · rw [if_pos hc]
    have hmem : (if 0 < item.sharedBy.length then item.price else 0)
        ∈ bill.items.map fun it => if 0 < it.sharedBy.length then it.price else 0 :=
      List.mem_map_of_mem _ hitem
    have hpr : (if 0 < item.sharedBy.length then item.price else 0) = 0 := by
      apply eq_zero_of_sum_eq_zero _ _ hzero _ hmem
      intro y hy
      rw [List.mem_map] at hy
      obtain ⟨it, hit, rfl⟩ := hy
      by_cases h : 0 < it.sharedBy.length
      · rw [if_pos h]; exact hnonneg it hit
      · rw [if_neg h]
    rw [if_pos hc.1] at hpr
    rw [hpr, zero_div, zero_mul]
  · rw [if_neg hc]

lemma itemShare_of_not_mem (people : List Person) (item : Item) (pid : String)
    (h : pid ∉ item.sharedBy) : itemShare people item pid = 0 := by
  unfold itemShare
  by_cases hc : 0 < item.sharedBy.length ∧ pid ∈ people.map Person.id
  · rw [if_pos hc, List.count_eq_zero_of_not_mem h]
    simp
  · rw [if_neg hc]

lemma billPersonItemTotal_of_not_mem (people : List Person) (bill : ReceiptData)
    (pid : String) (h : ∀ item ∈ bill.items, pid ∉ item.sharedBy) :
    billPersonItemTotal people bill pid = 0 := by
  unfold billPersonItemTotal
  apply List.sum_eq_zero
  intro x hx
  rw [List.mem_map] at hx
  obtain ⟨item, hitem, rfl⟩ := hx
  exact itemShare_of_not_mem people item pid (h item hitem)

/-! ## Claim C1 -/

/-- C1: for every item, an empty sharedBy contributes zero to every person;
if sharedBy is a set of N members (no duplicate ids), each member who is a
person of the session receives exactly price / N as the contribution of the
item to their bill item total; and the contribution never divides by the
qty field (it is invariant under changing qty). -/
theorem claim_C1_item_split (people : List Person) (item : Item) (pid : String) :
    (item.sharedBy = [] → itemShare people item pid = 0)
    ∧ (item.sharedBy.Nodup → pid ∈ item.sharedBy → pid ∈ people.map Person.id →
        itemShare people item pid = item.price / (item.sharedBy.length : ℚ))
    ∧ (∀ q : ℚ, itemShare people { item with qty := q } pid = itemShare people item pid) := by
  refine ⟨?_, ?_, fun q => rfl⟩
  · intro h
    unfold itemShare
    rw [if_neg]
    rintro ⟨hlen, -⟩
    rw [h] at hlen
    simp at hlen
  · intro hnd hmem hppl
    unfold itemShare
    rw [if_pos ⟨List.length_pos_of_mem hmem, hppl⟩,
      List.count_eq_one_of_mem hnd hmem]
    simp

def wit1People : List Person := [⟨"a", "Alice", "red"⟩]

def wit1Item : Item := ⟨"i1", "nasi goreng", 10, 2, ["a", "b"]⟩

/-- Witness for C1 at a concrete item shared by two ids, one of them a
session person: the person receives price / 2. -/
theorem claim_C1_witness :
    itemShare wit1People wit1Item "a" = wit1Item.price / (wit1Item.sharedBy.length : ℚ) :=
  (claim_C1_item_split wit1People wit1Item "a").2.1 (by decide) (by decide) (by decide)

/-! ## Claim C2 (corrected: the zero case needs nonnegative prices) -/

def cex2People : List Person := [⟨"a", "A", "red"⟩, ⟨"b", "B", "blue"⟩]

def cex2Bill : ReceiptData :=
  ⟨"r2", "dinner", [⟨"i1", "x", 5, 1, ["a"]⟩, ⟨"i2", "y", -5, 1, ["b"]⟩], 7, 10, 0, 17⟩

/-- Counterexample to C2 as stated: a bill whose assigned prices are 5 and
-5 has assignedSubtotal zero, every sharedBy id is a person, yet the
taxShare contribution of person a is 10 * (5 / 7), not zero. -/
theorem claim_C2_counterexample :
    (cex2People.map Person.id).Nodup
    ∧ (∀ item ∈ cex2Bill.items, ∀ pid ∈ item.sharedBy, pid ∈ cex2People.map Person.id)
    ∧ billAssignedSubtotal cex2Bill = 0
    ∧ billTaxShare cex2People cex2Bill "a" ≠ 0 := by
  refine ⟨by decide, by decide, ?_, ?_⟩
  · norm_num [billAssignedSubtotal, cex2Bill]
  · have hb : ¬ ("b" = "a") := by decide
    norm_num [billTaxShare, billPersonItemTotal, itemShare, baseForProportion,
      billAssignedSubtotal, cex2Bill, cex2People, List.count_cons, List.count_nil, hb]

/-- C2 amended: with distinct person ids and every sharedBy id a person,
the taxShare contributions of one bill sum to bill.tax and the serviceShare
contributions to bill.serviceCharge whenever assignedSubtotal > 0; and when
assignedSubtotal = 0 and additionally every item price is nonnegative,
every person's contributions from the bill are zero. -/
theorem claim_C2_tax_service_sums (people : List Person) (bill : ReceiptData)
    (hnd : (people.map Person.id).Nodup)
    (hids : ∀ item ∈ bill.items, ∀ pid ∈ item.sharedBy, pid ∈ people.map Person.id) :
    (0 < billAssignedSubtotal bill →
      (people.map fun p => billTaxShare people bill p.id).sum = bill.tax
      ∧ (people.map fun p => billServiceShare people bill p.id).sum = bill.serviceCharge)
    ∧ (billAssignedSubtotal bill = 0 → (∀ item ∈ bill.items, 0 ≤ item.price) →
      ∀ p ∈ people, billTaxShare people bill p.id = 0
        ∧ billServiceShare people bill p.id = 0) := by
  constructor
  · intro hpos
    constructor
    · simp only [billTaxShare]
      exact sum_proportional_share people bill bill.tax hnd hids hpos
    · simp only [billServiceShare]
      exact sum_proportional_share people bill bill.serviceCharge hnd hids hpos
  · intro hz hnn p _
    have h0 := billPersonItemTotal_eq_zero people bill p.id hz hnn
    unfold billTaxShare billServiceShare
    rw [h0, zero_div, mul_zero, mul_zero]
    exact ⟨rfl, rfl⟩

def wit2People : List Person := [⟨"a", "A", "red"⟩, ⟨"b", "B", "blue"⟩]

def wit2Bill : ReceiptData :=
  ⟨"r2w", "dinner", [⟨"i1", "x", 10, 1, ["a", "b"]⟩], 10, 6, 3, 19⟩

def wit2ZeroBill : ReceiptData := ⟨"r2z", "empty", [], 4, 6, 3, 13⟩

/-- Witness for C2 at concrete inputs: a fully assigned bill with tax 6
distributes exactly 6, and a bill with no assigned items gives person a a
zero taxShare. -/
theorem claim_C2_witness :
    (wit2People.map fun p => billTaxShare wit2People wit2Bill p.id).sum = wit2Bill.tax
    ∧ billTaxShare wit2People wit2ZeroBill "a" = 0 :=
  ⟨((claim_C2_tax_service_sums wit2People wit2Bill (by decide) (by decide)).1
      (by norm_num [billAssignedSubtotal, wit2Bill])).1,
   ((claim_C2_tax_service_sums wit2People wit2ZeroBill (by decide) (by decide)).2
      (by norm_num [billAssignedSubtotal, wit2ZeroBill]) (by simp [wit2ZeroBill])
      ⟨"a", "A", "red"⟩ (by decide)).1⟩

/-! ## Claim C4 (corrected: a zero stored subtotal falls back to 1, not to
the stored subtotal) -/

def cex4Bill : ReceiptData := ⟨"r4", "empty", [], 0, 10, 5, 15⟩

/-- Counterexample to C4 as stated: for a bill with no assigned items and
stored subtotal 0, the code's base of the proportion is 1, not the stored
subtotal field as the claim asserts (the JavaScript reads subtotal || 1). -/
theorem claim_C4_counterexample :
    ¬ 0 < billAssignedSubtotal cex4Bill
    ∧ baseForProportion cex4Bill ≠ cex4Bill.subtotal := by
  constructor
  · norm_num [billAssignedSubtotal, cex4Bill]
  · norm_num [baseForProportion, billAssignedSubtotal, cex4Bill]

/-- C4 amended: the base equals assignedSubtotal when that is positive,
otherwise the stored subtotal when that is nonzero, otherwise 1; and the
per-person tax and service shares are coeff * (itemTotal / base) with that
base in each of the three cases. -/
theorem claim_C4_base_fallback (people : List Person) (bill : ReceiptData) (pid : String) :
    (0 < billAssignedSubtotal bill →
      baseForProportion bill = billAssignedSubtotal bill
      ∧ billTaxShare people bill pid
          = bill.tax * (billPersonItemTotal people bill pid / billAssignedSubtotal bill)
      ∧ billServiceShare people bill pid
          = bill.serviceCharge * (billPersonItemTotal people bill pid / billAssignedSubtotal bill))
    ∧ (¬ 0 < billAssignedSubtotal bill → bill.subtotal ≠ 0 →
      baseForProportion bill = bill.subtotal
      ∧ billTaxShare people bill pid
          = bill.tax * (billPersonItemTotal people bill pid / bill.subtotal)
      ∧ billServiceShare people bill pid
          = bill.serviceCharge * (billPersonItemTotal people bill pid / bill.subtotal))
    ∧ (¬ 0 < billAssignedSubtotal bill → bill.subtotal = 0 →
      baseForProportion bill = 1
      ∧ billTaxShare people bill pid = bill.tax * billPersonItemTotal people bill pid
      ∧ billServiceShare people bill pid
          = bill.serviceCharge * billPersonItemTotal people bill pid) := by
  refine ⟨fun hpos => ?_, fun hneg hsub => ?_, fun hneg hsub => ?_⟩
  · have hb : baseForProportion bill = billAssignedSubtotal bill := by
      unfold baseForProportion
      rw [if_pos hpos]
    exact ⟨hb, by unfold billTaxShare; rw [hb], by unfold billServiceShare; rw [hb]⟩
  · have hb : baseForProportion bill = bill.subtotal := by
      unfold baseForProportion
      rw [if_neg hneg, if_neg hsub]
    exact ⟨hb, by unfold billTaxShare; rw [hb], by unfold billServiceShare; rw [hb]⟩
  · have hb : baseForProportion bill = 1 := by
      unfold baseForProportion
      rw [if_neg hneg, if_pos hsub]
    refine ⟨hb, ?_, ?_⟩
    · unfold billTaxShare
      rw [hb, div_one]
    · unfold billServiceShare
      rw [hb, div_one]

/-- Witness for C4 at concrete bills exercising the positive case and the
zero-subtotal fallback case. -/
theorem claim_C4_witness :
    (baseForProportion wit2Bill = billAssignedSubtotal wit2Bill)
    ∧ (baseForProportion cex4Bill = 1
        ∧ billTaxShare wit2People cex4Bill "a"
            = cex4Bill.tax * billPersonItemTotal wit2People cex4Bill "a") :=
  ⟨((claim_C4_base_fallback wit2People wit2Bill "a").1
      (by norm_num [billAssignedSubtotal, wit2Bill])).1,
   let h := (claim_C4_base_fallback wit2People cex4Bill "a").2.2
     (by norm_num [billAssignedSubtotal, cex4Bill]) (by norm_num [cex4Bill])
   ⟨h.1, h.2.1⟩⟩

/-! ## Claim C9 -/

def people9 : List Person := [⟨"a", "A", "red"⟩]

def bill9 : ReceiptData :=
  ⟨"r9", "lunch", [⟨"i9", "z", 10, 1, ["a", "ghost"]⟩], 10, 0, 0, 10⟩

/-- C9: an id that is not the id of any session person receives no share at
all (and no error is signalled, the share is a total function); on the
concrete bill whose only item, priced 10, is shared by person a and the
unknown id ghost, the full price 10 still counts into assignedSubtotal
while the people receive only 5 in total, strictly less. -/
theorem claim_C9_unknown_ids :
    (∀ (people : List Person) (item : Item) (pid : String),
        pid ∉ people.map Person.id → itemShare people item pid = 0)
    ∧ billAssignedSubtotal bill9 = 10
    ∧ billPersonItemTotal people9 bill9 "a" = 5
    ∧ (people9.map fun p => billPersonItemTotal people9 bill9 p.id).sum = 5
    ∧ (people9.map fun p => billPersonItemTotal people9 bill9 p.id).sum
        < billAssignedSubtotal bill9 := by
  refine ⟨?_,
    by norm_num [billAssignedSubtotal, bill9],
    by
      have hg : ¬ ("ghost" = "a") := by decide
      norm_num [billPersonItemTotal, itemShare, bill9, people9, List.count_cons,
        List.count_nil, hg],
    by
      have hg : ¬ ("ghost" = "a") := by decide
      norm_num [billPersonItemTotal, itemShare, bill9, people9, List.count_cons,
        List.count_nil, hg],
    by
      have hg : ¬ ("ghost" = "a") := by decide
      norm_num [billPersonItemTotal, itemShare, billAssignedSubtotal, bill9, people9,
        List.count_cons, List.count_nil, hg]⟩
  intro people item pid h
  unfold itemShare
  rw [if_neg (fun hc => h hc.2)]

/-- Witness for C9: the unknown id ghost itself gets a zero share of the
item of bill9. -/
theorem claim_C9_witness :
    itemShare people9 ⟨"i9", "z", 10, 1, ["a", "ghost"]⟩ "ghost" = 0 :=
  claim_C9_unknown_ids.1 people9 ⟨"i9", "z", 10, 1, ["a", "ghost"]⟩ "ghost" (by decide)

/-! ## Claim C8 -/

/-- C8: the allocator is total and returns exactly one totals record per
person, in people-list order; every record satisfies
finalTotal = itemTotal + taxShare + serviceShare,
amountPaid = the session-global sum of the person's payments, and
balance = amountPaid - finalTotal; and a person appearing in no sharedBy
list gets all four share fields zero. -/
theorem claim_C8_allocator_total (people : List Person) (bills : List ReceiptData)
    (payments : List Payment) :
    (calculatePersonTotals people bills payments).map (fun r => (r.id, r.name))
      = people.map (fun p => (p.id, p.name))
    ∧ (∀ r ∈ calculatePersonTotals people bills payments,
        r.finalTotal = r.itemTotal + r.taxShare + r.serviceShare
        ∧ r.amountPaid = amountPaidOf payments r.id
        ∧ r.balance = r.amountPaid - r.finalTotal)
    ∧ (∀ p ∈ people,
        (∀ bill ∈ bills, ∀ item ∈ bill.items, p.id ∉ item.sharedBy) →
        (personRecord people bills payments p).itemTotal = 0
        ∧ (personRecord people bills payments p).taxShare = 0
        ∧ (personRecord people bills payments p).serviceShare = 0
        ∧ (personRecord people bills payments p).finalTotal = 0) := by
  refine ⟨?_, ?_, ?_⟩
  · simp only [calculatePersonTotals, List.map_map]
    exact List.map_congr_left fun p _ => rfl
  · intro r hr
    rw [calculatePersonTotals, List.mem_map] at hr
    obtain ⟨p, hp, rfl⟩ := hr
    refine ⟨?_, rfl, rfl⟩
    show (bills.map fun bill =>
        billPersonItemTotal people bill p.id + billTaxShare people bill p.id
          + billServiceShare people bill p.id).sum
      = (bills.map fun bill => billPersonItemTotal people bill p.id).sum
        + (bills.map fun bill => billTaxShare people bill p.id).sum
        + (bills.map fun bill => billServiceShare people bill p.id).sum
    rw [sum_map_add' bills
        (fun bill => billPersonItemTotal people bill p.id + billTaxShare people bill p.id)
        (fun bill => billServiceShare people bill p.id),
      sum_map_add' bills (fun bill => billPersonItemTotal people bill p.id)
        (fun bill => billTaxShare people bill p.id)]
  · intro p _ h
    have hzero : ∀ bill ∈ bills, billPersonItemTotal people bill p.id = 0 :=
      fun bill hbill => billPersonItemTotal_of_not_mem people bill p.id (h bill hbill)
    have htax : ∀ bill ∈ bills, billTaxShare people bill p.id = 0 := by
      intro bill hbill
      unfold billTaxShare
      rw [hzero bill hbill, zero_div, mul_zero]
    have hsvc : ∀ bill ∈ bills, billServiceShare people bill p.id = 0 := by
      intro bill hbill
      unfold billServiceShare
      rw [hzero bill hbill, zero_div, mul_zero]
    refine ⟨?_, ?_, ?_, ?_⟩
    · show (bills.map fun bill => billPersonItemTotal people bill p.id).sum = 0
      apply List.sum_eq_zero
      intro x hx
      rw [List.mem_map] at hx
      obtain ⟨bill, hbill, rfl⟩ := hx
      exact hzero bill hbill
    · show (bills.map fun bill => billTaxShare people bill p.id).sum = 0
      apply List.sum_eq_zero
      intro x hx
      rw [List.mem_map] at hx
      obtain ⟨bill, hbill, rfl⟩ := hx
      exact htax bill hbill
    · show (bills.map fun bill => billServiceShare people bill p.id).sum = 0
      apply List.sum_eq_zero
      intro x hx
      rw [List.mem_map] at hx
      obtain ⟨bill, hbill, rfl⟩ := hx
      exact hsvc bill hbill
    · show (bills.map fun bill =>
          billPersonItemTotal people bill p.id + billTaxShare people bill p.id
            + billServiceShare people bill p.id).sum = 0
      apply List.sum_eq_zero
      intro x hx
      rw [List.mem_map] at hx
      obtain ⟨bill, hbill, rfl⟩ := hx
      rw [hzero bill hbill, htax bill hbill, hsvc bill hbill, add_zero, add_zero]

def people8 : List Person := [⟨"a", "A", "red"⟩]

def bills8 : List ReceiptData := [⟨"r8", "d", [⟨"i8", "x", 12, 1, []⟩], 12, 2, 1, 15⟩]

def payments8 : List Payment := [⟨"pay1", "a", 3, "first"⟩]

/-- Witness for C8 at a concrete session whose single item is unassigned:
the record list has the right shape, its record satisfies the equations,
and the person receives all-zero shares. -/
theorem claim_C8_witness :
    ((calculatePersonTotals people8 bills8 payments8).map (fun r => (r.id, r.name))
      = people8.map (fun p => (p.id, p.name)))
    ∧ ((personRecord people8 bills8 payments8 ⟨"a", "A", "red"⟩).finalTotal
        = (personRecord people8 bills8 payments8 ⟨"a", "A", "red"⟩).itemTotal
          + (personRecord people8 bills8 payments8 ⟨"a", "A", "red"⟩).taxShare
          + (personRecord people8 bills8 payments8 ⟨"a", "A", "red"⟩).serviceShare)
    ∧ (personRecord people8 bills8 payments8 ⟨"a", "A", "red"⟩).itemTotal = 0
    ∧ (personRecord people8 bills8 payments8 ⟨"a", "A", "red"⟩).finalTotal = 0 :=
  ⟨(claim_C8_allocator_total people8 bills8 payments8).1,
   ((claim_C8_allocator_total people8 bills8 payments8).2.1
      (personRecord people8 bills8 payments8 ⟨"a", "A", "red"⟩)
      (List.mem_map_of_mem _ (by decide))).1,
   ((claim_C8_allocator_total people8 bills8 payments8).2.2 ⟨"a", "A", "red"⟩
      (by decide) (by decide)).1,
   ((claim_C8_allocator_total people8 bills8 payments8).2.2 ⟨"a", "A", "red"⟩
      (by decide) (by decide)).2.2.2⟩

/-! ## Settlement loop lemmas -/

lemma settleGoF_nil_left (n : ℕ) (cs : List (String × ℚ)) :
    settleGoF n [] cs = ([], [], cs) := by
  cases n <;> rfl

lemma settleGoF_nil_right (n : ℕ) (d : String × ℚ) (ds : List (String × ℚ)) :
    settleGoF n (d :: ds) [] = ([], d :: ds, []) := by
  cases n <;> rfl

lemma settleGoF_zero (ds cs : List (String × ℚ)) :
    settleGoF 0 ds cs = ([], ds, cs) := by
  cases ds with
  | nil => rfl
  | cons d ds' => cases cs <;> rfl

lemma settleGoF_cons (n : ℕ) (dn : String) (db : ℚ) (ds : List (String × ℚ))
    (cn : String) (cb : ℚ) (cs : List (String × ℚ)) :
    settleGoF (n + 1) ((dn, db) :: ds) ((cn, cb) :: cs)
      = ((⟨dn, cn, min db cb⟩ : Settlement)
            :: (settleGoF n
                 (if db - min db cb < 1/100 then ds else (dn, db - min db cb) :: ds)
                 (if cb - min db cb < 1/100 then cs else (cn, cb - min db cb) :: cs)).1,
         (settleGoF n
            (if db - min db cb < 1/100 then ds else (dn, db - min db cb) :: ds)
            (if cb - min db cb < 1/100 then cs else (cn, cb - min db cb) :: cs)).2) := rfl

/-- If the debtor cursor does not advance, the creditor remaining balance
became exactly zero (the transfer amount was the creditor minimum). -/
lemma creditor_zero_of_debtor_stays {db cb : ℚ} (h : ¬ db - min db cb < 1/100) :
    cb - min db cb = 0 := by
  rcases min_cases db cb with ⟨hm, _⟩ | ⟨hm, _⟩
  · exfalso
    apply h
    rw [hm]
    norm_num
  · rw [hm]
    ring

/-- Symmetrically, if the creditor cursor does not advance, the debtor
remaining balance became exactly zero. -/
lemma debtor_zero_of_creditor_stays {db cb : ℚ} (h : ¬ cb - min db cb < 1/100) :
    db - min db cb = 0 := by
  rcases min_cases db cb with ⟨hm, _⟩ | ⟨hm, _⟩
  · rw [hm]
    ring
  · exfalso
    apply h
    rw [hm]
    norm_num

/-- The loop result does not depend on the fuel once the fuel is at least
the total length of the two lists: each iteration drops at least one entry. -/
lemma settleGoF_fuel_irrel : ∀ (n m : ℕ) (ds cs : List (String × ℚ)),
    ds.length + cs.length ≤ n → ds.length + cs.length ≤ m →
    settleGoF n ds cs = settleGoF m ds cs := by
  intro n
  induction n with
  | zero =>
    intro m ds cs hn _
    cases ds with
    | nil => rw [settleGoF_nil_left, settleGoF_nil_left]
    | cons d ds' => simp at hn
  | succ n ih =>
    intro m ds cs hn hm
    cases ds with
    | nil => rw [settleGoF_nil_left, settleGoF_nil_left]
    | cons d ds' =>
      cases cs with
      | nil => rw [settleGoF_nil_right, settleGoF_nil_right]
      | cons c cs' =>
        obtain ⟨dn, db⟩ := d
        obtain ⟨cn, cb⟩ := c
        cases m with
        | zero =>
          exfalso
          simp at hm
        | succ m' =>
          simp only [List.length_cons] at hn hm
          rw [settleGoF_cons, settleGoF_cons]
          by_cases h1 : db - min db cb < 1/100 <;> by_cases h2 : cb - min db cb < 1/100
          · rw [if_pos h1, if_pos h2,
              ih m' ds' cs' (by omega) (by omega)]
          · rw [if_pos h1, if_neg h2,
              ih m' ds' ((cn, cb - min db cb) :: cs') (by simp; omega) (by simp; omega)]
          · rw [if_neg h1, if_pos h2,
              ih m' ((dn, db - min db cb) :: ds') cs' (by simp; omega) (by simp; omega)]
          · exact absurd
              (by rw [creditor_zero_of_debtor_stays h1]; norm_num : cb - min db cb < 1/100)
              h2

lemma settleSpecGo_nil_left (n : ℕ) (cs : List (String × ℚ)) :
    settleSpecGo n [] cs = [] := by
  cases n <;> rfl

lemma settleSpecGo_nil_right (n : ℕ) (d : String × ℚ) (ds : List (String × ℚ)) :
    settleSpecGo n (d :: ds) [] = [] := by
  cases n <;> rfl

lemma settleSpecGo_cons (n : ℕ) (dn : String) (db : ℚ) (ds : List (String × ℚ))
    (cn : String) (cb : ℚ) (cs : List (String × ℚ)) :
    settleSpecGo (n + 1) ((dn, db) :: ds) ((cn, cb) :: cs)
      = ⟨dn, cn, min db cb⟩
          :: settleSpecGo n
               (if db - min db cb < 1/100 then ds else (dn, db - min db cb) :: ds)
               (if cb - min db cb < 1/100 then cs else (cn, cb - min db cb) :: cs) := rfl

/-- The reference recursion computes exactly the settlements component of
the loop embedding, fuel for fuel. -/
lemma settleSpecGo_eq_settleGoF : ∀ (n : ℕ) (ds cs : List (String × ℚ)),
    settleSpecGo n ds cs = (settleGoF n ds cs).1 := by
  intro n
  induction n with
  | zero =>
    intro ds cs
    rw [settleGoF_zero]
    cases ds with
    | nil => rfl
    | cons d ds' => cases cs <;> rfl
  | succ n ih =>
    intro ds cs
    cases ds with
    | nil => rw [settleGoF_nil_left, settleSpecGo_nil_left]
    | cons d ds' =>
      cases cs with
      | nil => rw [settleGoF_nil_right, settleSpecGo_nil_right]
      | cons c cs' =>
        obtain ⟨dn, db⟩ := d
        obtain ⟨cn, cb⟩ := c
        rw [settleGoF_cons, settleSpecGo_cons, ih]

/-! ## Claim C5 -/

/-- C5: the settlement list of the code equals the output of the reference
algorithm of the specification: unsorted in-order partition, two cursors,
transfer of the minimum of the two remainings, both remainings decremented,
and the two cursor advances decided independently (both may advance in the
same iteration). -/
theorem claim_C5_reference_equivalence (totals : List PersonTotalsRec) :
    specSettlements totals = calculateSettlements totals := by
  unfold specSettlements calculateSettlements settleGo
  rw [settleSpecGo_eq_settleGoF]
  rfl

/-- Every emitted transfer goes from a name of the debtor list to a name of
the creditor list. -/
lemma settleGoF_sources : ∀ (n : ℕ) (ds cs : List (String × ℚ)),
    ∀ s ∈ (settleGoF n ds cs).1,
      s.fromName ∈ ds.map Prod.fst ∧ s.toName ∈ cs.map Prod.fst := by
  intro n
  induction n with
  | zero =>
    intro ds cs s hs
    rw [settleGoF_zero] at hs
    cases hs
  | succ n ih =>
    intro ds cs s hs
    cases ds with
    | nil =>
      rw [settleGoF_nil_left] at hs
      cases hs
    | cons d ds' =>
      cases cs with
      | nil =>
        rw [settleGoF_nil_right] at hs
        cases hs
      | cons c cs' =>
        obtain ⟨dn, db⟩ := d
        obtain ⟨cn, cb⟩ := c
        rw [settleGoF_cons] at hs
        rcases List.mem_cons.mp hs with h | h
        · rw [h]
          exact ⟨List.mem_cons_self dn _, List.mem_cons_self cn _⟩
        · obtain ⟨h1, h2⟩ := ih _ _ s h
          constructor
          · by_cases hd : db - min db cb < 1/100
            · rw [if_pos hd] at h1
              exact List.mem_cons_of_mem _ h1
            · rw [if_neg hd] at h1
              simp only [List.map_cons] at h1 ⊢
              exact h1
          · by_cases hc : cb - min db cb < 1/100
            · rw [if_pos hc] at h2
              exact List.mem_cons_of_mem _ h2
            · rw [if_neg hc] at h2
              simp only [List.map_cons] at h2 ⊢
              exact h2

/-- A name in the debtor partition comes from a totals record with balance
below -0.01 and carries that record's name. -/
lemma debtors_names (totals : List PersonTotalsRec) (nm : String)
    (h : nm ∈ (debtorsOf totals).map Prod.fst) :
    ∃ t ∈ totals, t.balance < -(1/100) ∧ t.name = nm := by
  unfold debtorsOf at h
  rw [List.map_map, List.mem_map] at h
  obtain ⟨t, ht, hteq⟩ := h
  rw [List.mem_filter] at ht
  exact ⟨t, ht.1, by simpa using ht.2, hteq⟩

/-- A name in the creditor partition comes from a totals record with
balance above 0.01 and carries that record's name. -/
lemma creditors_names (totals : List PersonTotalsRec) (nm : String)
    (h : nm ∈ (creditorsOf totals).map Prod.fst) :
    ∃ t ∈ totals, 1/100 < t.balance ∧ t.name = nm := by
  unfold creditorsOf at h
  rw [List.map_map, List.mem_map] at h
  obtain ⟨t, ht, hteq⟩ := h
  rw [List.mem_filter] at ht
  exact ⟨t, ht.1, by simpa using ht.2, hteq⟩

/-! ## Claim C7 -/

/-- C7: with distinct display names (transfers identify people by name), a
person is the sender of a transfer only if their balance is below -0.01, the
receiver of a transfer only if their balance is above 0.01, and a person
within plus or minus 0.01 of zero appears in no transfer. -/
theorem claim_C7_participants (totals : List PersonTotalsRec)
    (hnd : (totals.map PersonTotalsRec.name).Nodup) :
    (∀ t ∈ totals, ∀ s ∈ calculateSettlements totals,
        s.fromName = t.name → t.balance < -(1/100))
    ∧ (∀ t ∈ totals, ∀ s ∈ calculateSettlements totals,
        s.toName = t.name → 1/100 < t.balance)
    ∧ (∀ t ∈ totals, -(1/100) ≤ t.balance → t.balance ≤ 1/100 →
        ∀ s ∈ calculateSettlements totals,
          s.fromName ≠ t.name ∧ s.toName ≠ t.name) := by
  have hsrc : ∀ s ∈ calculateSettlements totals,
      s.fromName ∈ (debtorsOf totals).map Prod.fst
        ∧ s.toName ∈ (creditorsOf totals).map Prod.fst := by
    intro s hs
    unfold calculateSettlements settleGo at hs
    exact settleGoF_sources _ _ _ s hs
  have hfrom : ∀ t ∈ totals, ∀ s ∈ calculateSettlements totals,
      s.fromName = t.name → t.balance < -(1/100) := by
    intro t ht s hs heq
    obtain ⟨u, hu, hub, hun⟩ := debtors_names totals s.fromName (hsrc s hs).1
    have : u = t := List.inj_on_of_nodup_map hnd hu ht (hun.trans heq)
    rw [← this]
    exact hub
  have hto : ∀ t ∈ totals, ∀ s ∈ calculateSettlements totals,
      s.toName = t.name → 1/100 < t.balance := by
    intro t ht s hs heq
    obtain ⟨u, hu, hub, hun⟩ := creditors_names totals s.toName (hsrc s hs).2
    have : u = t := List.inj_on_of_nodup_map hnd hu ht (hun.trans heq)
    rw [← this]
    exact hub
  refine ⟨hfrom, hto, ?_⟩
  intro t ht h1 h2 s hs
  constructor
  · intro heq
    have := hfrom t ht s hs heq
    linarith
  · intro heq
    have := hto t ht s hs heq
    linarith

def totals7 : List PersonTotalsRec :=
  [⟨"d1", "Dan", "red", 5, 0, 0, 5, 0, -5⟩,
   ⟨"n1", "Ned", "teal", 0, 0, 0, 0, 0, 0⟩,
   ⟨"c1", "Cara", "blue", 0, 0, 0, 0, 5, 5⟩]

/-- Witness for C7 at a concrete three-person totals list: the sender of
the emitted transfer is the debtor, and the zero-balance person appears on
neither side of it. -/
theorem claim_C7_witness :
    ((⟨"d1", "Dan", "red", 5, 0, 0, 5, 0, -5⟩ : PersonTotalsRec).balance < -(1/100))
    ∧ ((⟨"Dan", "Cara", 5⟩ : Settlement).fromName ≠ "Ned"
        ∧ (⟨"Dan", "Cara", 5⟩ : Settlement).toName ≠ "Ned") := by
  have hmem : (⟨"Dan", "Cara", 5⟩ : Settlement) ∈ calculateSettlements totals7 := by
    norm_num [calculateSettlements, settleGo, debtorsOf, creditorsOf, totals7,
      List.filter, settleGoF]
  have h := claim_C7_participants totals7 (by decide)
  exact ⟨h.1 ⟨"d1", "Dan", "red", 5, 0, 0, 5, 0, -5⟩ (List.mem_cons_self _ _)
      ⟨"Dan", "Cara", 5⟩ hmem rfl,
    h.2.2 ⟨"n1", "Ned", "teal", 0, 0, 0, 0, 0, 0⟩
      (List.mem_cons_of_mem _ (List.mem_cons_self _ _))
      (by norm_num) (by norm_num) ⟨"Dan", "Cara", 5⟩ hmem⟩

/-! ## Claim C10 -/

/-- When every entry of both cursor lists carries at least 0.01, every
emitted transfer amount is at least 0.01. -/
lemma settleGoF_amount_ge : ∀ (n : ℕ) (ds cs : List (String × ℚ)),
    (∀ x ∈ ds, 1/100 ≤ x.2) → (∀ x ∈ cs, 1/100 ≤ x.2) →
    ∀ s ∈ (settleGoF n ds cs).1, 1/100 ≤ s.amount := by
  intro n
  induction n with
  | zero =>
    intro ds cs _ _ s hs
    rw [settleGoF_zero] at hs
    cases hs
  | succ n ih =>
    intro ds cs hd hc s hs
    cases ds with
    | nil =>
      rw [settleGoF_nil_left] at hs
      cases hs
    | cons d ds' =>
      cases cs with
      | nil =>
        rw [settleGoF_nil_right] at hs
        cases hs
      | cons c cs' =>
        obtain ⟨dn, db⟩ := d
        obtain ⟨cn, cb⟩ := c
        rw [settleGoF_cons] at hs
        rcases List.mem_cons.mp hs with h | h
        · rw [h]
          exact le_min (hd (dn, db) (List.mem_cons_self _ _))
            (hc (cn, cb) (List.mem_cons_self _ _))
        · refine ih _ _ ?_ ?_ s h
          · by_cases h1 : db - min db cb < 1/100
            · rw [if_pos h1]
              exact fun x hx => hd x (List.mem_cons_of_mem _ hx)
            · rw [if_neg h1]
              intro x hx
              rcases List.mem_cons.mp hx with rfl | hx'
              · exact le_of_not_lt h1
              · exact hd x (List.mem_cons_of_mem _ hx')
          · by_cases h2 : cb - min db cb < 1/100
            · rw [if_pos h2]
              exact fun x hx => hc x (List.mem_cons_of_mem _ hx)
            · rw [if_neg h2]
              intro x hx
              rcases List.mem_cons.mp hx with rfl | hx'
              · exact le_of_not_lt h2
              · exact hc x (List.mem_cons_of_mem _ hx')

/-- C10: every transfer emitted by calculateSettlements has amount at least
0.01 (in particular strictly positive): fresh partition entries exceed 0.01
and a cursor advances exactly when its remaining drops below 0.01, so both
current remainings are at least 0.01 whenever a transfer is appended. -/
theorem claim_C10_min_amount (totals : List PersonTotalsRec) :
    ∀ s ∈ calculateSettlements totals, 1/100 ≤ s.amount := by
  intro s hs
  unfold calculateSettlements settleGo at hs
  refine settleGoF_amount_ge _ _ _ ?_ ?_ s hs
  · intro x hx
    unfold debtorsOf at hx
    rw [List.mem_map] at hx
    obtain ⟨t, ht, rfl⟩ := hx
    rw [List.mem_filter] at ht
    have hb : t.balance < -(1/100) := by simpa using ht.2
    show (1:ℚ)/100 ≤ |t.balance|
    rw [abs_of_neg (by linarith)]
    linarith
  · intro x hx
    unfold creditorsOf at hx
    rw [List.mem_map] at hx
    obtain ⟨t, ht, rfl⟩ := hx
    rw [List.mem_filter] at ht
    have hb : (1:ℚ)/100 < t.balance := by simpa using ht.2
    show (1:ℚ)/100 ≤ t.balance
    linarith

/-- Witness for C10: the single transfer of the concrete session totals7
has amount at least 0.01. -/
theorem claim_C10_witness :
    (1:ℚ)/100 ≤ (⟨"Dan", "Cara", 5⟩ : Settlement).amount :=
  claim_C10_min_amount totals7 ⟨"Dan", "Cara", 5⟩
    (by norm_num [calculateSettlements, settleGo, debtorsOf, creditorsOf, totals7,
      List.filter, settleGoF])

/-! ## Cent granularity -/

lemma isCent_iff (q : ℚ) : isCent q ↔ ∃ k : ℤ, 100 * q = (k : ℚ) := by
  unfold isCent
  constructor
  · intro h
    exact ⟨(100 * q).num, ((Rat.den_eq_one_iff _).mp h).symm⟩
  · rintro ⟨k, hk⟩
    rw [hk]
    exact Rat.den_intCast k

lemma isCent_sub {a b : ℚ} (ha : isCent a) (hb : isCent b) : isCent (a - b) := by
  rw [isCent_iff] at *
  obtain ⟨j, hj⟩ := ha
  obtain ⟨k, hk⟩ := hb
  refine ⟨j - k, ?_⟩
  push_cast
  rw [mul_sub, hj, hk]

lemma isCent_min {a b : ℚ} (ha : isCent a) (hb : isCent b) : isCent (min a b) := by
  rcases min_cases a b with ⟨hm, _⟩ | ⟨hm, _⟩ <;> rw [hm] <;> assumption

lemma isCent_neg {a : ℚ} (ha : isCent a) : isCent (-a) := by
  rw [isCent_iff] at *
  obtain ⟨k, hk⟩ := ha
  refine ⟨-k, ?_⟩
  push_cast
  rw [mul_neg, hk]

lemma isCent_abs {a : ℚ} (ha : isCent a) : isCent |a| := by
  rcases abs_cases a with ⟨h, _⟩ | ⟨h, _⟩ <;> rw [h]
  · exact ha
  · exact isCent_neg ha

/-- A nonnegative cent multiple below one cent is exactly zero. -/
lemma isCent_eq_zero {q : ℚ} (hc : isCent q) (h0 : 0 ≤ q) (hlt : q < 1/100) :
    q = 0 := by
  rw [isCent_iff] at hc
  obtain ⟨k, hk⟩ := hc
  have hk0 : (0 : ℚ) ≤ (k : ℚ) := by rw [← hk]; linarith
  have hk1 : (k : ℚ) < 1 := by rw [← hk]; linarith
  have hz : k = 0 := by
    have h1 : 0 ≤ k := by exact_mod_cast hk0
    have h2 : k < 1 := by exact_mod_cast hk1
    omega
  have h100 : (100 : ℚ) * q = 0 := by
    rw [hk, hz]
    norm_num
  linarith

/-! ## Per-name accounting -/

lemma sentSum_cons (nm : String) (s : Settlement) (l : List Settlement) :
    sentSum nm (s :: l) = (if s.fromName = nm then s.amount else 0) + sentSum nm l := by
  unfold sentSum
  rw [List.filter_cons]
  by_cases h : s.fromName = nm
  · rw [if_pos (by simpa using h), if_pos h, List.map_cons, List.sum_cons]
  · rw [if_neg (by simpa using h), if_neg h, zero_add]

lemma recvSum_cons (nm : String) (s : Settlement) (l : List Settlement) :
    recvSum nm (s :: l) = (if s.toName = nm then s.amount else 0) + recvSum nm l := by
  unfold recvSum
  rw [List.filter_cons]
  by_cases h : s.toName = nm
  · rw [if_pos (by simpa using h), if_pos h, List.map_cons, List.sum_cons]
  · rw [if_neg (by simpa using h), if_neg h, zero_add]

lemma entSum_cons (nm : String) (a : String × ℚ) (l : List (String × ℚ)) :
    entSum nm (a :: l) = (if a.1 = nm then a.2 else 0) + entSum nm l := by
  unfold entSum
  rw [List.filter_cons]
  by_cases h : a.1 = nm
  · rw [if_pos (by simpa using h), if_pos h, List.map_cons, List.sum_cons]
  · rw [if_neg (by simpa using h), if_neg h, zero_add]

lemma entSum_zero_of_not_mem (nm : String) (l : List (String × ℚ))
    (h : nm ∉ l.map Prod.fst) : entSum nm l = 0 := by
  induction l with
  | nil => rfl
  | cons a t ih =>
    rw [List.map_cons, List.mem_cons, not_or] at h
    rw [entSum_cons, if_neg (fun e => h.1 e.symm), ih h.2, zero_add]

lemma debtorsOf_cons (u : PersonTotalsRec) (rest : List PersonTotalsRec) :
    debtorsOf (u :: rest)
      = if u.balance < -(1/100) then (u.name, |u.balance|) :: debtorsOf rest
        else debtorsOf rest := by
  unfold debtorsOf
  rw [List.filter_cons]
  by_cases hb : u.balance < -(1/100)
  · rw [if_pos (by simpa using hb), if_pos hb, List.map_cons]
  · rw [if_neg (by simpa using hb), if_neg hb]

lemma creditorsOf_cons (u : PersonTotalsRec) (rest : List PersonTotalsRec) :
    creditorsOf (u :: rest)
      = if 1/100 < u.balance then (u.name, u.balance) :: creditorsOf rest
        else creditorsOf rest := by
  unfold creditorsOf
  rw [List.filter_cons]
  by_cases hb : (1:ℚ)/100 < u.balance
  · rw [if_pos (by simpa using hb), if_pos hb, List.map_cons]
  · rw [if_neg (by simpa using hb), if_neg hb]

lemma debtors_names_subset (totals : List PersonTotalsRec) :
    ∀ nm ∈ (debtorsOf totals).map Prod.fst, nm ∈ totals.map PersonTotalsRec.name := by
  intro nm hnm
  obtain ⟨t, ht, -, rfl⟩ := debtors_names totals nm hnm
  exact List.mem_map_of_mem _ ht

lemma creditors_names_subset (totals : List PersonTotalsRec) :
    ∀ nm ∈ (creditorsOf totals).map Prod.fst, nm ∈ totals.map PersonTotalsRec.name := by
  intro nm hnm
  obtain ⟨t, ht, -, rfl⟩ := creditors_names totals nm hnm
  exact List.mem_map_of_mem _ ht

/-- With distinct display names, the debtor entry balance registered under a
person's name is the person's debt magnitude (or nothing). -/
lemma entSum_debtorsOf (totals : List PersonTotalsRec)
    (hnd : (totals.map PersonTotalsRec.name).Nodup)
    (t : PersonTotalsRec) (ht : t ∈ totals) :
    entSum t.name (debtorsOf totals)
      = if t.balance < -(1/100) then |t.balance| else 0 := by
  induction totals with
  | nil => cases ht
  | cons u rest ih =>
    rw [List.map_cons, List.nodup_cons] at hnd
    rcases List.mem_cons.mp ht with rfl | htr
    · have hnotin : t.name ∉ (debtorsOf rest).map Prod.fst :=
        fun hin => hnd.1 (debtors_names_subset rest t.name hin)
      by_cases hb : t.balance < -(1/100)
      · rw [debtorsOf_cons, if_pos hb, entSum_cons, if_pos rfl,
          entSum_zero_of_not_mem t.name _ hnotin, add_zero, if_pos hb]
      · rw [debtorsOf_cons, if_neg hb, if_neg hb]
        exact entSum_zero_of_not_mem t.name _ hnotin
    · have hname : u.name ≠ t.name :=
        fun e => hnd.1 (e ▸ List.mem_map_of_mem PersonTotalsRec.name htr)
      by_cases hb : u.balance < -(1/100)
      · rw [debtorsOf_cons, if_pos hb, entSum_cons, if_neg hname, zero_add]
        exact ih hnd.2 htr
      · rw [debtorsOf_cons, if_neg hb]
        exact ih hnd.2 htr

/-- With distinct display names, the creditor entry balance registered under
a person's name is the person's credit (or nothing). -/
lemma entSum_creditorsOf (totals : List PersonTotalsRec)
    (hnd : (totals.map PersonTotalsRec.name).Nodup)
    (t : PersonTotalsRec) (ht : t ∈ totals) :
    entSum t.name (creditorsOf totals)
      = if 1/100 < t.balance then t.balance else 0 := by
  induction totals with
  | nil => cases ht
  | cons u rest ih =>
    rw [List.map_cons, List.nodup_cons] at hnd
    rcases List.mem_cons.mp ht with rfl | htr
    · have hnotin : t.name ∉ (creditorsOf rest).map Prod.fst :=
        fun hin => hnd.1 (creditors_names_subset rest t.name hin)
      by_cases hb : (1:ℚ)/100 < t.balance
      · rw [creditorsOf_cons, if_pos hb, entSum_cons, if_pos rfl,
          entSum_zero_of_not_mem t.name _ hnotin, add_zero, if_pos hb]
      · rw [creditorsOf_cons, if_neg hb, if_neg hb]
        exact entSum_zero_of_not_mem t.name _ hnotin
    · have hname : u.name ≠ t.name :=
        fun e => hnd.1 (e ▸ List.mem_map_of_mem PersonTotalsRec.name htr)
      by_cases hb : (1:ℚ)/100 < u.balance
      · rw [creditorsOf_cons, if_pos hb, entSum_cons, if_neg hname, zero_add]
        exact ih hnd.2 htr
      · rw [creditorsOf_cons, if_neg hb]
        exact ih hnd.2 htr

lemma debtors_entries_ge (totals : List PersonTotalsRec) :
    ∀ x ∈ debtorsOf totals, 1/100 ≤ x.2 := by
  intro x hx
  unfold debtorsOf at hx
  rw [List.mem_map] at hx
  obtain ⟨t, ht, rfl⟩ := hx
  have hb : t.balance < -(1/100) := by simpa using (List.mem_filter.mp ht).2
  show (1:ℚ)/100 ≤ |t.balance|
  rw [abs_of_neg (by linarith)]
  linarith

lemma creditors_entries_ge (totals : List PersonTotalsRec) :
    ∀ x ∈ creditorsOf totals, 1/100 ≤ x.2 := by
  intro x hx
  unfold creditorsOf at hx
  rw [List.mem_map] at hx
  obtain ⟨t, ht, rfl⟩ := hx
  have hb : (1:ℚ)/100 < t.balance := by simpa using (List.mem_filter.mp ht).2
  show (1:ℚ)/100 ≤ t.balance
  linarith

lemma debtors_entries_cent (totals : List PersonTotalsRec)
    (hcent : ∀ t ∈ totals, isCent t.balance) :
    ∀ x ∈ debtorsOf totals, isCent x.2 := by
  intro x hx
  unfold debtorsOf at hx
  rw [List.mem_map] at hx
  obtain ⟨t, ht, rfl⟩ := hx
  exact isCent_abs (hcent t (List.mem_filter.mp ht).1)

lemma creditors_entries_cent (totals : List PersonTotalsRec)
    (hcent : ∀ t ∈ totals, isCent t.balance) :
    ∀ x ∈ creditorsOf totals, isCent x.2 := by
  intro x hx
  unfold creditorsOf at hx
  rw [List.mem_map] at hx
  obtain ⟨t, ht, rfl⟩ := hx
  exact hcent t (List.mem_filter.mp ht).1

/-- When every balance is an exact cent multiple, every entry carries at
least one cent and the two sides have equal sums, the loop drains both
lists completely and every name sends (receives) exactly the total balance
registered under it on the debtor (creditor) side. -/
lemma settleGoF_exact : ∀ (n : ℕ) (ds cs : List (String × ℚ)),
    ds.length + cs.length ≤ n →
    (∀ x ∈ ds, 1/100 ≤ x.2) → (∀ x ∈ cs, 1/100 ≤ x.2) →
    (∀ x ∈ ds, isCent x.2) → (∀ x ∈ cs, isCent x.2) →
    (ds.map Prod.snd).sum = (cs.map Prod.snd).sum →
    (settleGoF n ds cs).2.1 = [] ∧ (settleGoF n ds cs).2.2 = []
    ∧ ∀ nm, sentSum nm (settleGoF n ds cs).1 = entSum nm ds
        ∧ recvSum nm (settleGoF n ds cs).1 = entSum nm cs := by
  intro n
  induction n with
  | zero =>
    intro ds cs hn h1 h2 h3 h4 hsum
    cases ds with
    | cons d ds' => simp at hn
    | nil =>
      cases cs with
      | cons c cs' => simp at hn
      | nil => exact ⟨rfl, rfl, fun nm => ⟨rfl, rfl⟩⟩
  | succ n ih =>
    intro ds cs hn h1 h2 h3 h4 hsum
    cases ds with
    | nil =>
      cases cs with
      | nil => exact ⟨rfl, rfl, fun nm => ⟨rfl, rfl⟩⟩
      | cons c cs' =>
        exfalso
        have hc := h2 c (List.mem_cons_self _ _)
        have ht : 0 ≤ (cs'.map Prod.snd).sum := by
          apply List.sum_nonneg
          intro x hx
          rw [List.mem_map] at hx
          obtain ⟨y, hy, rfl⟩ := hx
          have := h2 y (List.mem_cons_of_mem _ hy)
          linarith
        rw [List.map_nil, List.sum_nil, List.map_cons, List.sum_cons] at hsum
        linarith
    | cons d ds' =>
      cases cs with
      | nil =>
        exfalso
        have hd := h1 d (List.mem_cons_self _ _)
        have ht : 0 ≤ (ds'.map Prod.snd).sum := by
          apply List.sum_nonneg
          intro x hx
          rw [List.mem_map] at hx
          obtain ⟨y, hy, rfl⟩ := hx
          have := h1 y (List.mem_cons_of_mem _ hy)
          linarith
        rw [List.map_nil, List.sum_nil, List.map_cons, List.sum_cons] at hsum
        linarith
      | cons c cs' =>
        obtain ⟨dn, db⟩ := d
        obtain ⟨cn, cb⟩ := c
        simp only [List.length_cons] at hn
        have hdb := h1 (dn, db) (List.mem_cons_self _ _)
        have hcb := h2 (cn, cb) (List.mem_cons_self _ _)
        have hdbc := h3 (dn, db) (List.mem_cons_self _ _)
        have hcbc := h4 (cn, cb) (List.mem_cons_self _ _)
        have h1' : ∀ x ∈ ds', 1/100 ≤ x.2 := fun x hx => h1 x (List.mem_cons_of_mem _ hx)
        have h2' : ∀ x ∈ cs', 1/100 ≤ x.2 := fun x hx => h2 x (List.mem_cons_of_mem _ hx)
        have h3' : ∀ x ∈ ds', isCent x.2 := fun x hx => h3 x (List.mem_cons_of_mem _ hx)
        have h4' : ∀ x ∈ cs', isCent x.2 := fun x hx => h4 x (List.mem_cons_of_mem _ hx)
        rw [List.map_cons, List.sum_cons, List.map_cons, List.sum_cons] at hsum
        have hminc : isCent (min db cb) := isCent_min hdbc hcbc
        have hd0 : (0:ℚ) ≤ db - min db cb := sub_nonneg.mpr (min_le_left _ _)
        have hc0 : (0:ℚ) ≤ cb - min db cb := sub_nonneg.mpr (min_le_right _ _)
        rw [settleGoF_cons]
        dsimp only
        by_cases hA : db - min db cb < 1/100 <;> by_cases hB : cb - min db cb < 1/100
        · have hdz : db - min db cb = 0 := isCent_eq_zero (isCent_sub hdbc hminc) hd0 hA
          have hcz : cb - min db cb = 0 := isCent_eq_zero (isCent_sub hcbc hminc) hc0 hB
          rw [if_pos hA, if_pos hB]
          obtain ⟨hr1, hr2, hr3⟩ := ih ds' cs' (by omega) h1' h2' h3' h4' (by linarith)
          refine ⟨hr1, hr2, fun nm => ?_⟩
          obtain ⟨hs, hr⟩ := hr3 nm
          constructor
          · simp only [sentSum_cons]
            rw [hs]
            simp only [entSum_cons]
            by_cases hdn : dn = nm
            · rw [if_pos hdn, if_pos hdn]
              linarith
            · rw [if_neg hdn, if_neg hdn]
          · simp only [recvSum_cons]
            rw [hr]
            simp only [entSum_cons]
            by_cases hcn : cn = nm
            · rw [if_pos hcn, if_pos hcn]
              linarith
            · rw [if_neg hcn, if_neg hcn]
        · have hdz : db - min db cb = 0 := isCent_eq_zero (isCent_sub hdbc hminc) hd0 hA
          rw [if_pos hA, if_neg hB]
          obtain ⟨hr1, hr2, hr3⟩ := ih ds' ((cn, cb - min db cb) :: cs')
            (by simp only [List.length_cons]; omega)
            h1'
            (by
              intro x hx
              rcases List.mem_cons.mp hx with rfl | hx'
              · exact le_of_not_lt hB
              · exact h2' x hx')
            h3'
            (by
              intro x hx
              rcases List.mem_cons.mp hx with rfl | hx'
              · exact isCent_sub hcbc hminc
              · exact h4' x hx')
            (by
              rw [List.map_cons, List.sum_cons]
              dsimp only
              linarith)
          refine ⟨hr1, hr2, fun nm => ?_⟩
          obtain ⟨hs, hr⟩ := hr3 nm
          constructor
          · simp only [sentSum_cons]
            rw [hs]
            simp only [entSum_cons]
            by_cases hdn : dn = nm
            · rw [if_pos hdn, if_pos hdn]
              linarith
            · rw [if_neg hdn, if_neg hdn]
          · simp only [recvSum_cons]
            rw [hr]
            simp only [entSum_cons]
            by_cases hcn : cn = nm
            · rw [if_pos hcn, if_pos hcn, if_pos hcn]
              ring
            · rw [if_neg hcn, if_neg hcn, if_neg hcn]
              ring
        · have hcz : cb - min db cb = 0 := isCent_eq_zero (isCent_sub hcbc hminc) hc0 hB
          rw [if_neg hA, if_pos hB]
          obtain ⟨hr1, hr2, hr3⟩ := ih ((dn, db - min db cb) :: ds') cs'
            (by simp only [List.length_cons]; omega)
            (by
              intro x hx
              rcases List.mem_cons.mp hx with rfl | hx'
              · exact le_of_not_lt hA
              · exact h1' x hx')
            h2'
            (by
              intro x hx
              rcases List.mem_cons.mp hx with rfl | hx'
              · exact isCent_sub hdbc hminc
              · exact h3' x hx')
            h4'
            (by
              rw [List.map_cons, List.sum_cons]
              dsimp only
              linarith)
          refine ⟨hr1, hr2, fun nm => ?_⟩
          obtain ⟨hs, hr⟩ := hr3 nm
          constructor
          · simp only [sentSum_cons]
            rw [hs]
            simp only [entSum_cons]
            by_cases hdn : dn = nm
            · rw [if_pos hdn, if_pos hdn, if_pos hdn]
              ring
            · rw [if_neg hdn, if_neg hdn, if_neg hdn]
              ring
          · simp only [recvSum_cons]
            rw [hr]
            simp only [entSum_cons]
            by_cases hcn : cn = nm
            · rw [if_pos hcn, if_pos hcn]
              linarith
            · rw [if_neg hcn, if_neg hcn]
        · exfalso
          exact hB (by rw [creditor_zero_of_debtor_stays hA]; norm_num)

/-! ## Claim C3 (corrected: equal sums alone do not drive every balance to
within 0.01; cent-multiple balances are additionally needed) -/

def totals3c : List PersonTotalsRec :=
  [⟨"a", "Ann", "red", 0, 0, 0, 0, 0, -(1009/1000)⟩,
   ⟨"b", "Bob", "blue", 0, 0, 0, 0, 0, -(1009/1000)⟩,
   ⟨"c", "Cid", "green", 0, 0, 0, 0, 0, 1⟩,
   ⟨"d", "Dot", "pink", 0, 0, 0, 0, 0, 1⟩,
   ⟨"e", "Eve", "teal", 0, 0, 0, 0, 0, 18/1000⟩]

/-- Counterexample to C3 as stated: the five balances -1.009, -1.009, 1, 1,
0.018 have equal debtor and creditor magnitudes, yet both debtor advances
silently drop a 0.009 residue, the loop ends with Eve unmatched, and
applying all transfers leaves her balance 0.018, beyond the 0.01 tolerance. -/
theorem claim_C3_counterexample :
    ((debtorsOf totals3c).map Prod.snd).sum = ((creditorsOf totals3c).map Prod.snd).sum
    ∧ (⟨"e", "Eve", "teal", 0, 0, 0, 0, 0, 18/1000⟩ : PersonTotalsRec) ∈ totals3c
    ∧ 1/100 < |appliedBalance (calculateSettlements totals3c)
        ⟨"e", "Eve", "teal", 0, 0, 0, 0, 0, 18/1000⟩| := by
  have ha : |(1009:ℚ)/1000| = 1009/1000 := abs_of_pos (by norm_num)
  have hm : ((1009:ℚ)/1000) ⊓ 1 = 1 := min_eq_right (by norm_num)
  refine ⟨?_, by simp [totals3c], ?_⟩
  · norm_num [debtorsOf, creditorsOf, totals3c, List.filter, ha]
  · have h1 : ¬ ("Ann" = "Eve") := by decide
    have h2 : ¬ ("Bob" = "Eve") := by decide
    have h3 : ¬ ("Cid" = "Eve") := by decide
    have h4 : ¬ ("Dot" = "Eve") := by decide
    have he : appliedBalance (calculateSettlements totals3c)
        ⟨"e", "Eve", "teal", 0, 0, 0, 0, 0, 18/1000⟩ = 18/1000 := by
      norm_num [appliedBalance, sentSum, recvSum, calculateSettlements, settleGo,
        debtorsOf, creditorsOf, totals3c, List.filter, settleGoF, h1, h2, h3, h4,
        ha, hm]
    rw [he, abs_of_pos (by norm_num)]
    norm_num

lemma entSum_nonneg (nm : String) (l : List (String × ℚ))
    (h : ∀ x ∈ l, 0 ≤ x.2) : 0 ≤ entSum nm l := by
  unfold entSum
  apply List.sum_nonneg
  intro x hx
  rw [List.mem_map] at hx
  obtain ⟨y, hy, rfl⟩ := hx
  exact h y (List.mem_filter.mp hy).1

/-- Unconditionally (nonnegative entries suffice; no granularity or
balancedness assumption), the amount a name sends is bounded by the total
balance registered under it on the debtor side: every transfer from the
current entry is capped by its remaining balance. -/
lemma settleGoF_sent_le : ∀ (n : ℕ) (ds cs : List (String × ℚ)) (nm : String),
    (∀ x ∈ ds, 0 ≤ x.2) →
    sentSum nm (settleGoF n ds cs).1 ≤ entSum nm ds := by
  intro n
  induction n with
  | zero =>
    intro ds cs nm h
    rw [settleGoF_zero]
    exact entSum_nonneg nm ds h
  | succ n ih =>
    intro ds cs nm h
    cases ds with
    | nil =>
      rw [settleGoF_nil_left]
      exact entSum_nonneg nm [] h
    | cons d ds' =>
      cases cs with
      | nil =>
        rw [settleGoF_nil_right]
        exact entSum_nonneg nm _ h
      | cons c cs' =>
        obtain ⟨dn, db⟩ := d
        obtain ⟨cn, cb⟩ := c
        have hdb0 : 0 ≤ db := h (dn, db) (List.mem_cons_self _ _)
        have h' : ∀ x ∈ ds', 0 ≤ x.2 := fun x hx => h x (List.mem_cons_of_mem _ hx)
        have hminle : min db cb ≤ db := min_le_left _ _
        rw [settleGoF_cons]
        dsimp only
        by_cases hA : db - min db cb < 1/100 <;> by_cases hB : cb - min db cb < 1/100
        · rw [if_pos hA, if_pos hB]
          have hrec := ih ds' cs' nm h'
          simp only [sentSum_cons, entSum_cons]
          by_cases hdn : dn = nm
          · rw [if_pos hdn, if_pos hdn]
            linarith
          · rw [if_neg hdn, if_neg hdn]
            linarith
        · rw [if_pos hA, if_neg hB]
          have hrec := ih ds' ((cn, cb - min db cb) :: cs') nm h'
          simp only [sentSum_cons, entSum_cons]
          by_cases hdn : dn = nm
          · rw [if_pos hdn, if_pos hdn]
            linarith
          · rw [if_neg hdn, if_neg hdn]
            linarith
        · rw [if_neg hA, if_pos hB]
          have hrec := ih ((dn, db - min db cb) :: ds') cs' nm (by
            intro x hx
            rcases List.mem_cons.mp hx with rfl | hx'
            · exact sub_nonneg.mpr hminle
            · exact h' x hx')
          simp only [entSum_cons] at hrec
          simp only [sentSum_cons, entSum_cons]
          by_cases hdn : dn = nm
          · rw [if_pos hdn] at hrec
            rw [if_pos hdn, if_pos hdn]
            linarith
          · rw [if_neg hdn] at hrec
            rw [if_neg hdn, if_neg hdn]
            linarith
        · exfalso
          exact hB (by rw [creditor_zero_of_debtor_stays hA]; norm_num)

/-- C3 amended: under the claim's equal-magnitude hypothesis, with people
identified by distinct display names, the total amount sent by any person
never exceeds their original debt magnitude; and when additionally every
balance is an integer multiple of 0.01, applying all transfers leaves every
balance within 0.01 of zero.  The cent-multiple condition is needed only
for the second conjunct, and only there is it assumed. -/
theorem claim_C3_settlement_conservation (totals : List PersonTotalsRec)
    (hnd : (totals.map PersonTotalsRec.name).Nodup)
    (hsum : ((debtorsOf totals).map Prod.snd).sum
      = ((creditorsOf totals).map Prod.snd).sum) :
    (∀ t ∈ totals, sentSum t.name (calculateSettlements totals)
        ≤ if t.balance < -(1/100) then -t.balance else 0)
    ∧ ((∀ t ∈ totals, isCent t.balance) →
        ∀ t ∈ totals, |appliedBalance (calculateSettlements totals) t| ≤ 1/100) := by
  have hcalc : calculateSettlements totals
      = (settleGoF ((debtorsOf totals).length + (creditorsOf totals).length)
          (debtorsOf totals) (creditorsOf totals)).1 := rfl
  constructor
  · intro t ht
    have hle := settleGoF_sent_le
      ((debtorsOf totals).length + (creditorsOf totals).length)
      (debtorsOf totals) (creditorsOf totals) t.name
      (fun x hx => le_trans (by norm_num) (debtors_entries_ge totals x hx))
    rw [hcalc]
    refine le_trans hle ?_
    rw [entSum_debtorsOf totals hnd t ht]
    by_cases hb : t.balance < -(1/100)
    · rw [if_pos hb, if_pos hb, abs_of_neg (by linarith)]
    · rw [if_neg hb, if_neg hb]
  · intro hcent
    obtain ⟨-, -, hex⟩ := settleGoF_exact
      ((debtorsOf totals).length + (creditorsOf totals).length)
      (debtorsOf totals) (creditorsOf totals) (le_refl _)
      (debtors_entries_ge totals) (creditors_entries_ge totals)
      (debtors_entries_cent totals hcent) (creditors_entries_cent totals hcent) hsum
    have hsent : ∀ t ∈ totals, sentSum t.name (calculateSettlements totals)
        = if t.balance < -(1/100) then -t.balance else 0 := by
      intro t ht
      rw [hcalc, (hex t.name).1, entSum_debtorsOf totals hnd t ht]
      by_cases hb : t.balance < -(1/100)
      · rw [if_pos hb, if_pos hb, abs_of_neg (by linarith)]
      · rw [if_neg hb, if_neg hb]
    have hrecv : ∀ t ∈ totals, recvSum t.name (calculateSettlements totals)
        = if 1/100 < t.balance then t.balance else 0 := by
      intro t ht
      rw [hcalc, (hex t.name).2, entSum_creditorsOf totals hnd t ht]
    intro t ht
    unfold appliedBalance
    rw [hsent t ht, hrecv t ht]
    by_cases hb1 : t.balance < -(1/100)
    · rw [if_pos hb1, if_neg (by linarith)]
      have h0 : t.balance + -t.balance - 0 = 0 := by ring
      rw [h0, abs_zero]
      norm_num
    · by_cases hb2 : (1:ℚ)/100 < t.balance
      · rw [if_neg hb1, if_pos hb2]
        have h0 : t.balance + 0 - t.balance = 0 := by ring
        rw [h0, abs_zero]
        norm_num
      · rw [if_neg hb1, if_neg hb2]
        have h0 : t.balance + 0 - 0 = t.balance := by ring
        rw [h0, abs_le]
        constructor <;> linarith

/-- Witness for C3 at the concrete session totals7 (balances -5, 0, 5, all
cent multiples): the debtor sends no more than 5, and every applied balance
lands within 0.01 of zero. -/
theorem claim_C3_witness :
    (sentSum (⟨"d1", "Dan", "red", 5, 0, 0, 5, 0, -5⟩ : PersonTotalsRec).name
        (calculateSettlements totals7)
      ≤ if (⟨"d1", "Dan", "red", 5, 0, 0, 5, 0, -5⟩ : PersonTotalsRec).balance < -(1/100)
          then -(⟨"d1", "Dan", "red", 5, 0, 0, 5, 0, -5⟩ : PersonTotalsRec).balance
          else 0)
    ∧ |appliedBalance (calculateSettlements totals7)
        ⟨"d1", "Dan", "red", 5, 0, 0, 5, 0, -5⟩| ≤ 1/100 := by
  have h := claim_C3_settlement_conservation totals7 (by decide)
    (by norm_num [debtorsOf, creditorsOf, totals7, List.filter])
  exact ⟨h.1 _ (List.mem_cons_self _ _),
    h.2 (by
      intro t ht
      rcases List.mem_cons.mp ht with rfl | ht1
      · exact (isCent_iff _).mpr ⟨-500, by norm_num⟩
      rcases List.mem_cons.mp ht1 with rfl | ht2
      · exact (isCent_iff _).mpr ⟨0, by norm_num⟩
      rcases List.mem_cons.mp ht2 with rfl | ht3
      · exact (isCent_iff _).mpr ⟨500, by norm_num⟩
      · cases ht3) _ (List.mem_cons_self _ _)⟩

/-! ## Claim C6 (corrected: equal start sums alone do not leave both lists
exhausted; cent-multiple balances are additionally needed) -/

def totals6c : List PersonTotalsRec :=
  [⟨"g", "Gail", "red", 0, 0, 0, 0, 0, -(1009/1000)⟩,
   ⟨"h", "Hank", "blue", 0, 0, 0, 0, 0, -(1009/1000)⟩,
   ⟨"i", "Iris", "green", 0, 0, 0, 0, 0, 1⟩,
   ⟨"j", "Jack", "pink", 0, 0, 0, 0, 0, 1⟩,
   ⟨"k", "Kate", "teal", 0, 0, 0, 0, 0, 18/1000⟩]

/-- Counterexample to C6 as stated: with balances -1.009, -1.009, 1, 1,
0.018 the two start sums are equal (both 2.018), yet the loop exits with the
debtor list exhausted and the creditor Kate never reached. -/
theorem claim_C6_counterexample :
    ((debtorsOf totals6c).map Prod.snd).sum = ((creditorsOf totals6c).map Prod.snd).sum
    ∧ (settleGo (debtorsOf totals6c) (creditorsOf totals6c)).2.2 ≠ [] := by
  have ha : |(1009:ℚ)/1000| = 1009/1000 := abs_of_pos (by norm_num)
  have hm : ((1009:ℚ)/1000) ⊓ 1 = 1 := min_eq_right (by norm_num)
  constructor
  · norm_num [debtorsOf, creditorsOf, totals6c, List.filter, ha]
  · norm_num [settleGo, debtorsOf, creditorsOf, totals6c, List.filter, settleGoF,
      ha, hm]

/-- C6 amended: the loop terminates on every input within
debtors.length + creditors.length iterations (each iteration advances at
least one cursor, so any fuel at least that bound gives the same result);
it stops as soon as either cursor list is exhausted; and when the two start
sums are equal and every balance is an integer multiple of 0.01, it leaves
both lists fully exhausted. -/
theorem claim_C6_termination :
    (∀ (n : ℕ) (ds cs : List (String × ℚ)),
        ds.length + cs.length ≤ n → settleGoF n ds cs = settleGo ds cs)
    ∧ (∀ (n : ℕ) (cs : List (String × ℚ)), settleGoF n [] cs = ([], [], cs))
    ∧ (∀ (n : ℕ) (d : String × ℚ) (ds : List (String × ℚ)),
        settleGoF n (d :: ds) [] = ([], d :: ds, []))
    ∧ (∀ totals : List PersonTotalsRec, (∀ t ∈ totals, isCent t.balance) →
        ((debtorsOf totals).map Prod.snd).sum
          = ((creditorsOf totals).map Prod.snd).sum →
        (settleGo (debtorsOf totals) (creditorsOf totals)).2.1 = []
        ∧ (settleGo (debtorsOf totals) (creditorsOf totals)).2.2 = []) := by
  refine ⟨?_, settleGoF_nil_left, settleGoF_nil_right, ?_⟩
  · intro n ds cs h
    exact settleGoF_fuel_irrel n (ds.length + cs.length) ds cs h (le_refl _)
  · intro totals hcent hsum
    obtain ⟨hr1, hr2, -⟩ := settleGoF_exact
      ((debtorsOf totals).length + (creditorsOf totals).length)
      (debtorsOf totals) (creditorsOf totals) (le_refl _)
      (debtors_entries_ge totals) (creditors_entries_ge totals)
      (debtors_entries_cent totals hcent) (creditors_entries_cent totals hcent) hsum
    exact ⟨hr1, hr2⟩

/-- Witness for C6 at the concrete session totals7: extra fuel changes
nothing, and the loop drains both cursor lists. -/
theorem claim_C6_witness :
    settleGoF 7 (debtorsOf totals7) (creditorsOf totals7)
      = settleGo (debtorsOf totals7) (creditorsOf totals7)
    ∧ (settleGo (debtorsOf totals7) (creditorsOf totals7)).2.1 = []
    ∧ (settleGo (debtorsOf totals7) (creditorsOf totals7)).2.2 = [] := by
  have hlen : (debtorsOf totals7).length + (creditorsOf totals7).length ≤ 7 := by
    norm_num [debtorsOf, creditorsOf, totals7, List.filter]
  have hc : ∀ t ∈ totals7, isCent t.balance := by
    intro t ht
    rcases List.mem_cons.mp ht with rfl | ht1
    · exact (isCent_iff _).mpr ⟨-500, by norm_num⟩
    rcases List.mem_cons.mp ht1 with rfl | ht2
    · exact (isCent_iff _).mpr ⟨0, by norm_num⟩
    rcases List.mem_cons.mp ht2 with rfl | ht3
    · exact (isCent_iff _).mpr ⟨500, by norm_num⟩
    · cases ht3
  have hs : ((debtorsOf totals7).map Prod.snd).sum
      = ((creditorsOf totals7).map Prod.snd).sum := by
    norm_num [debtorsOf, creditorsOf, totals7, List.filter]
  exact ⟨claim_C6_termination.1 7 _ _ hlen,
    (claim_C6_termination.2.2.2 totals7 hc hs).1,
    (claim_C6_termination.2.2.2 totals7 hc hs).2⟩

end SplitBill
